import Mathlib

/-!
Shallow embedding of the session/translation-history state machine of
`src/app.py` (Voice Translator Pro).  External collaborators (the Google
translator, the speech recognizer, Streamlit widgets) are modelled by
explicit outcome parameters; the session state (`st.session_state.app_state`)
is an explicit record threaded through the actions.

Python-specific primitives (`str.strip`, `str.lower`, `str.capitalize`,
substring test `in`, list slice `lst[-m:]`, dict construction with
insertion order and last-wins overwrite) are modelled by the `py*` and
`dict*` definitions below.
-/

/-! ## Python string and list primitives -/

/-- Python `str.lower()` (ASCII letters, as used by the language names). -/
def pyLower (s : String) : String :=
  String.mk (s.toList.map Char.toLower)

/-- Python `str.capitalize()`: first character upper-cased, the rest lower-cased. -/
def pyCapitalize (s : String) : String :=
  match s.toList with
  | [] => ""
  | c :: cs => String.mk (c.toUpper :: cs.map Char.toLower)

/-- Python `str.strip()`: drop leading and trailing whitespace. -/
def pyStrip (s : String) : String :=
  String.mk (((s.toList.dropWhile Char.isWhitespace).reverse.dropWhile Char.isWhitespace).reverse)

/-- Python substring test `needle in hay`. -/
def pyContains (hay needle : String) : Bool :=
  decide (needle.toList <:+: hay.toList)

/-- Python slice `lst[-m:]`.  For `m = 0` the slice `lst[-0:] = lst[0:]` is the
whole list; for `m ≥ 1` it is the last `min m (length lst)` elements. -/
def pyTakeLast (m : Nat) (l : List α) : List α :=
  if m = 0 then l else l.drop (l.length - m)

/-! ## Python dicts as insertion-ordered association lists -/

/-- Assignment `dct[k] = v` on an insertion-ordered association list:
overwrite in place if the key is present, append otherwise. -/
def dictInsert (acc : List (String × String)) (k v : String) : List (String × String) :=
  match acc with
  | [] => [(k, v)]
  | (k', v') :: rest => if k' = k then (k, v) :: rest else (k', v') :: dictInsert rest k v

/-- Python dict comprehension over a list of pairs (keys keep first-insertion
position, later values overwrite earlier ones). -/
def dictOf (l : List (String × String)) : List (String × String) :=
  l.foldl (fun acc p => dictInsert acc p.1 p.2) []

/-- Python `dct.get(k, dflt)`. -/
def dictGet (d : List (String × String)) (k : String) (dflt : String) : String :=
  match d.find? (fun p => p.1 == k) with
  | some p => p.2
  | none => dflt

/-! ## Language directory (`googletrans.LANGUAGES` and the derived maps) -/

/-- The external `LANGUAGES` dict as a list of `(code, name)` items. -/
abbrev LangDirectory := List (String × String)

/-- `language_mapping = {name: code for code, name in LANGUAGES.items()}` (app.py line 105). -/
def language_mapping (d : LangDirectory) : List (String × String) :=
  dictOf (d.map (fun p => (p.2, p.1)))

/-- `language_code_to_name = {code: name for name, code in language_mapping.items()}` (app.py line 106). -/
def language_code_to_name (d : LangDirectory) : List (String × String) :=
  dictOf ((language_mapping d).map (fun p => (p.2, p.1)))

/-- `get_language_code` (app.py lines 111-113): name → code with identity fallback. -/
def get_language_code (d : LangDirectory) (language_name : String) : String :=
  dictGet (language_mapping d) (pyLower language_name) language_name

/-- `get_language_name` (app.py lines 115-117): code → capitalized name with identity fallback. -/
def get_language_name (d : LangDirectory) (language_code : String) : String :=
  pyCapitalize (dictGet (language_code_to_name d) language_code language_code)

/-! ## Session state (`st.session_state.app_state`, app.py lines 83-99) -/

structure Settings where
  max_history : Nat
  speech_timeout : Nat
  theme : String
  show_stats : Bool
deriving DecidableEq

/-- The value stored in `app_state['translated_text']` when it is a dict. -/
structure TransResult where
  original : String
  translation : String
  from_lang : String
  to_lang : String
deriving DecidableEq

/-- A `conversation_history` entry (app.py lines 218-226 / 273-282).
`input_type` is `some "text"` on the text path and absent on the speech path. -/
structure HistoryEntry where
  timestamp : String
  original : String
  translation : String
  from_lang : String
  to_lang : String
  from_lang_name : String
  to_lang_name : String
  input_type : Option String := none
deriving DecidableEq

structure AppState where
  is_translating : Bool
  status : String
  status_class : String
  translated_text : Option TransResult
  conversation_history : List HistoryEntry
  total_translations : Nat
  favorites : List HistoryEntry
  settings : Settings
deriving DecidableEq

/-- Initial `app_state` (app.py lines 83-99).  `translated_text` starts as the
falsy empty string, modelled as `none`. -/
def initialState : AppState where
  is_translating := false
  status := "Ready to translate"
  status_class := "status-ready"
  translated_text := none
  conversation_history := []
  total_translations := 0
  favorites := []
  settings := { max_history := 10, speech_timeout := 5, theme := "light", show_stats := true }

/-- `update_status` (app.py lines 119-122). -/
def update_status (s : AppState) (status status_class : String) : AppState :=
  { s with status := status, status_class := status_class }

/-! ## Gateway outcomes -/

/-- What the external `translator.translate` call would do: return a
translation or raise an exception with message `msg`. -/
inductive TranslateOutcome where
  | ok (text : String)
  | err (msg : String)
deriving DecidableEq

/-- What the speech-capture phase of `translate_speech` would do: recognized
text, `sr.UnknownValueError`, `sr.RequestError`, or any other exception raised
inside the outer `try` (microphone/listen errors). -/
inductive SpeechCaptureOutcome where
  | ok (text : String)
  | unknownValue
  | requestError
  | otherError (msg : String)
deriving DecidableEq

/-! ## Actions -/

/-- `translate_text` (app.py lines 124-136).  Returns the updated state and
the translation result (`none` both for blank input and for a failed call). -/
def translate_text (s : AppState) (text : String) (outcome : TranslateOutcome) :
    AppState × Option String :=
  if pyStrip text = "" then (s, none)
  else
    match outcome with
    | .ok t => ({ s with total_translations := s.total_translations + 1 }, some t)
    | .err e => (update_status s ("❌ Translation failed: " ++ e) ("status-error"), none)

/-- The history entry built by `text_input_translation` (app.py lines 273-282). -/
def text_history_entry (d : LangDirectory) (timestamp original translated from_lang to_lang : String) :
    HistoryEntry where
  timestamp := timestamp
  original := original
  translation := translated
  from_lang := from_lang
  to_lang := to_lang
  from_lang_name := get_language_name d from_lang
  to_lang_name := get_language_name d to_lang
  input_type := some "text"

/-- The history entry built by `translate_speech` (app.py lines 218-226). -/
def speech_history_entry (d : LangDirectory) (timestamp original translated from_lang to_lang : String) :
    HistoryEntry where
  timestamp := timestamp
  original := original
  translation := translated
  from_lang := from_lang
  to_lang := to_lang
  from_lang_name := get_language_name d from_lang
  to_lang_name := get_language_name d to_lang
  input_type := none

/-- `text_input_translation` (app.py lines 243-294).  `input_text` is the
widget buffer `st.session_state.text_input`; the returned string is its value
after the call (cleared on success only). -/
def text_input_translation (d : LangDirectory) (s : AppState)
    (input_text timestamp from_lang to_lang : String) (outcome : TranslateOutcome) :
    AppState × String :=
  if input_text = "" then (s, input_text)
  else
    let s1 := update_status s ("✨ Translating...") ("status-processing")
    let r := translate_text s1 input_text outcome
    match r.2 with
    | none => (r.1, input_text)
    | some translated =>
      let res := TransResult.mk input_text translated (get_language_name d from_lang) (get_language_name d to_lang)
      let s3 := { r.1 with translated_text := some res }
      let h1 := s3.conversation_history ++ [text_history_entry d timestamp input_text translated from_lang to_lang]
      let h2 := if h1.length > s3.settings.max_history then pyTakeLast s3.settings.max_history h1 else h1
      let s4 := { s3 with conversation_history := h2 }
      (update_status s4 ("✅ Translation complete") ("status-ready"), "")

/-- `translate_speech` (app.py lines 153-241). -/
def translate_speech (d : LangDirectory) (s : AppState) (capture : SpeechCaptureOutcome)
    (timestamp from_lang to_lang : String) (outcome : TranslateOutcome) : AppState :=
  let s0 := update_status s ("🎙️ Preparing to listen...") ("status-processing")
  let sEnd :=
    match capture with
    | .otherError e => update_status s0 ("❌ Error: " ++ e) ("status-error")
    | .unknownValue =>
      let s1 := update_status s0 ("🎙️ Listening...") ("status-listening")
      let s2 := update_status s1 ("🔄 Processing speech...") ("status-processing")
      update_status s2 ("❓ Could not understand audio") ("status-error")
    | .requestError =>
      let s1 := update_status s0 ("🎙️ Listening...") ("status-listening")
      let s2 := update_status s1 ("🔄 Processing speech...") ("status-processing")
      update_status s2 ("❌ Speech recognition service unavailable") ("status-error")
    | .ok spoken =>
      let s1 := update_status s0 ("🎙️ Listening...") ("status-listening")
      let s2 := update_status s1 ("🔄 Processing speech...") ("status-processing")
      let s3 := update_status s2 ("✨ Translating...") ("status-processing")
      let r := translate_text s3 spoken outcome
      match r.2 with
      | none => r.1
      | some translated =>
        let res := TransResult.mk spoken translated (get_language_name d from_lang) (get_language_name d to_lang)
        let s4 := { r.1 with translated_text := some res }
        let h1 := s4.conversation_history ++ [speech_history_entry d timestamp spoken translated from_lang to_lang]
        let h2 := if h1.length > s4.settings.max_history then pyTakeLast s4.settings.max_history h1 else h1
        let s5 := { s4 with conversation_history := h2 }
        update_status s5 ("✅ Translation complete") ("status-ready")
  { sEnd with is_translating := false }

/-- `save_to_favorites` (app.py lines 138-144).  `conversation_history[-1]`
raises `IndexError` when the history is empty; the raise is modelled by
`Except.error`. -/
def save_to_favorites (s : AppState) : Except String AppState :=
  match s.translated_text with
  | none => Except.ok s
  | some _ =>
    match s.conversation_history.getLast? with
    | some entry => Except.ok { s with favorites := s.favorites ++ [entry] }
    | none => Except.error ("IndexError: list index out of range")

/-- Column headers shared by every history entry (pandas derives them from the
dict keys, app.py lines 218-226 / 273-282). -/
def baseColumns : List String :=
  ["timestamp", "original", "translation", "from_lang", "to_lang", "from_lang_name", "to_lang_name"]

def entryBaseRow (e : HistoryEntry) : List String :=
  [e.timestamp, e.original, e.translation, e.from_lang, e.to_lang, e.from_lang_name, e.to_lang_name]

/-- `export_history` (app.py lines 146-151): `None` on an empty history,
otherwise the CSV rows (header first) of the `DataFrame`; the `input_type`
column exists only when some entry carries it.  The function reads the state
without mutating it, hence the returned state component. -/
def export_history (s : AppState) : AppState × Option (List (List String)) :=
  match s.conversation_history with
  | [] => (s, none)
  | es =>
    let hasInputType := es.any (fun e => e.input_type.isSome)
    let header := baseColumns ++ (if hasInputType then [("input_type" : String)] else [])
    let rows := es.map (fun e => entryBaseRow e ++ (if hasInputType then [e.input_type.getD ("")] else []))
    (s, some (header :: rows))

/-- The Clear-History button handler (app.py lines 539-541). -/
def clear_history (s : AppState) : AppState :=
  { s with conversation_history := [] }

/-- The Maximum-History-Entries setting write-back (app.py lines 610-620):
the widget value is assigned to `settings['max_history']`, nothing else. -/
def update_max_history (s : AppState) (v : Nat) : AppState :=
  { s with settings := { s.settings with max_history := v } }

/-- The history search filter (app.py lines 568-577). -/
def filter_history (search_term : String) (h : List HistoryEntry) : List HistoryEntry :=
  if search_term = "" then h
  else h.filter (fun e =>
    pyContains (pyLower e.original) (pyLower search_term) ||
    pyContains (pyLower e.translation) (pyLower search_term))

/-! ## Usage statistics (app.py lines 319-328) -/

/-- One iteration of `langs[target] = langs.get(target, 0) + 1` on an
insertion-ordered dict. -/
def bump (acc : List (String × Nat)) (k : String) : List (String × Nat) :=
  match acc with
  | [] => [(k, 1)]
  | (k', v) :: rest => if k' = k then (k', v + 1) :: rest else (k', v) :: bump rest k

/-- The `langs` dict after the counting loop, for an arbitrary key list. -/
def countsList (l : List String) : List (String × Nat) :=
  l.foldl bump []

def lang_counts (h : List HistoryEntry) : List (String × Nat) :=
  countsList (h.map (fun e => e.to_lang_name))

/-- `max(langs, key=langs.get)`: first key of maximal count in dict
(insertion) order — Python `max` keeps the earlier element on ties. -/
def maxByCount : List (String × Nat) → Option (String × Nat)
  | [] => none
  | p :: rest => some (rest.foldl (fun best q => if q.2 > best.2 then q else best) p)

/-- The Most-Used-Language metric of `display_stats` (app.py lines 319-328). -/
def most_used_language (h : List HistoryEntry) : Option String :=
  (maxByCount (lang_counts h)).map (fun p => p.1)

/-- Number of history entries whose target-language name is `name`. -/
def countLang (h : List HistoryEntry) (name : String) : Nat :=
  h.countP (fun e => e.to_lang_name == name)

/-- Python `dct.get(k)` on a counting dict: the value at the first (unique)
binding of `k`. -/
def lookupC (cs : List (String × Nat)) (k : String) : Option Nat :=
  (cs.find? (fun p => p.1 == k)).map (fun p => p.2)

/-! ## Concrete sample data for closed statements -/

/-- A small concrete language directory in the shape of `googletrans.LANGUAGES`. -/
def sampleDir : LangDirectory :=
  [("en", "english"), ("es", "spanish"), ("fr", "french"), ("zh-cn", "chinese (simplified)")]

/-- Whether a gateway call actually failed during `translate_speech`: any
speech-capture failure, or a raising translation call (the translator is only
invoked when the recognized text is non-blank). -/
def gateway_failed (capture : SpeechCaptureOutcome) (outcome : TranslateOutcome) : Bool :=
  match capture, outcome with
  | .ok spoken, .err _ => !(pyStrip spoken == "")
  | .ok _, .ok _ => false
  | _, _ => true

/-- A state reached by a successful text translation followed by Clear
History: the current translation is still displayed but the history is empty. -/
def C3_crash_state : AppState :=
  clear_history (text_input_translation sampleDir initialState ("hello") ("ts") ("en") ("es") (.ok ("hola"))).1

/-- The state after six successful text translations from the initial state. -/
def sixTranslationsState : AppState :=
  (["a", "b", "c", "d", "e", "f"].foldl
    (fun st t => (text_input_translation sampleDir st t ("ts") ("en") ("es") (.ok t)).1)
    initialState)

/-- The initial state with the Maximum-History-Entries setting at 2. -/
def initialTwoState : AppState :=
  update_max_history initialState 2

/-- A history entry carrying only a target-language name (for concrete
statistics statements). -/
def mkLangEntry (n : String) : HistoryEntry where
  timestamp := ""
  original := ""
  translation := ""
  from_lang := ""
  to_lang := ""
  from_lang_name := ""
  to_lang_name := n
  input_type := none

/-- A history whose target-language counts are Spanish 3, French 1. -/
def spanishFrenchHistory : List HistoryEntry :=
  [mkLangEntry ("Spanish"), mkLangEntry ("Spanish"), mkLangEntry ("French"), mkLangEntry ("Spanish")]

/-! ## Helper lemmas -/

theorem pyStrip_empty : pyStrip ("") = "" := rfl

theorem pyTakeLast_length_le (m : Nat) (l : List α) (hm : m ≠ 0) :
    (pyTakeLast m l).length ≤ m := by
  simp only [pyTakeLast, if_neg hm, List.length_drop]
  omega

theorem pyTakeLast_eq_drop (m : Nat) (l : List α) (hm : m ≠ 0) :
    pyTakeLast m l = l.drop (l.length - m) := by
  simp only [pyTakeLast, if_neg hm]

/-- Normal form of a successful text translation. -/
theorem text_input_translation_ok (d : LangDirectory) (s : AppState)
    (input ts fl tl t : String) (h1 : input ≠ "") (h2 : pyStrip input ≠ "") :
    text_input_translation d s input ts fl tl (.ok t) =
    ({ s with
        status := "✅ Translation complete",
        status_class := "status-ready",
        translated_text := some (TransResult.mk input t (get_language_name d fl) (get_language_name d tl)),
        total_translations := s.total_translations + 1,
        conversation_history :=
          (if (s.conversation_history ++ [text_history_entry d ts input t fl tl]).length > s.settings.max_history
           then pyTakeLast s.settings.max_history (s.conversation_history ++ [text_history_entry d ts input t fl tl])
           else s.conversation_history ++ [text_history_entry d ts input t fl tl]) }, "") := by
  simp [text_input_translation, translate_text, update_status, h1, h2]

/-- Normal form of a blank (whitespace-only, non-empty) text translation. -/
theorem text_input_translation_blank (d : LangDirectory) (s : AppState)
    (input ts fl tl : String) (outcome : TranslateOutcome)
    (h1 : input ≠ "") (h2 : pyStrip input = "") :
    text_input_translation d s input ts fl tl outcome =
    (update_status s ("✨ Translating...") ("status-processing"), input) := by
  simp [text_input_translation, translate_text, update_status, h1, h2]

/-- Normal form of a successful speech translation. -/
theorem translate_speech_ok (d : LangDirectory) (s : AppState)
    (spoken ts fl tl t : String) (h2 : pyStrip spoken ≠ "") :
    translate_speech d s (.ok spoken) ts fl tl (.ok t) =
    { s with
        is_translating := false,
        status := "✅ Translation complete",
        status_class := "status-ready",
        translated_text := some (TransResult.mk spoken t (get_language_name d fl) (get_language_name d tl)),
        total_translations := s.total_translations + 1,
        conversation_history :=
          (if (s.conversation_history ++ [speech_history_entry d ts spoken t fl tl]).length > s.settings.max_history
           then pyTakeLast s.settings.max_history (s.conversation_history ++ [speech_history_entry d ts spoken t fl tl])
           else s.conversation_history ++ [speech_history_entry d ts spoken t fl tl]) } := by
  simp [translate_speech, translate_text, update_status, h2]

/-! ## C1 -/

/-- C1 counterexample: calling the text-translation action on the
whitespace-only input `"   "` changes the Status (text and class) from their
prior values, so the action is not a no-op on Status. -/
theorem C1_counterexample :
    ¬ ((text_input_translation sampleDir initialState ("   ") ("ts") ("en") ("es") (.ok ("hola"))).1.status
          = initialState.status ∧
       (text_input_translation sampleDir initialState ("   ") ("ts") ("en") ("es") (.ok ("hola"))).1.status_class
          = initialState.status_class) := by
  decide

/-- C1 (amended): on input that is empty or whitespace-only the
text-translation action leaves History, TranslationResult and
totalTranslations unchanged; on empty input it is a complete no-op (Status
included), while on whitespace-only non-empty input the Status is set to the
Processing status `"✨ Translating..."`. -/
theorem C1_blank_input (d : LangDirectory) (s : AppState)
    (input ts fl tl : String) (outcome : TranslateOutcome)
    (hws : pyStrip input = "") :
    ((text_input_translation d s input ts fl tl outcome).1.conversation_history = s.conversation_history ∧
     (text_input_translation d s input ts fl tl outcome).1.translated_text = s.translated_text ∧
     (text_input_translation d s input ts fl tl outcome).1.total_translations = s.total_translations) ∧
    (input = "" → text_input_translation d s input ts fl tl outcome = (s, input)) ∧
    (input ≠ "" →
      (text_input_translation d s input ts fl tl outcome).1.status = "✨ Translating..." ∧
      (text_input_translation d s input ts fl tl outcome).1.status_class = "status-processing") := by
  by_cases hi : input = ""
  · subst hi
    simp [text_input_translation]
  · rw [text_input_translation_blank d s input ts fl tl outcome hi hws]
    simp [update_status, hi]

theorem C1_blank_input_witness :
    pyStrip ("   ") = "" ∧
    (((text_input_translation sampleDir initialState ("   ") ("ts") ("en") ("es") (.ok ("hola"))).1.conversation_history = initialState.conversation_history ∧
      (text_input_translation sampleDir initialState ("   ") ("ts") ("en") ("es") (.ok ("hola"))).1.translated_text = initialState.translated_text ∧
      (text_input_translation sampleDir initialState ("   ") ("ts") ("en") ("es") (.ok ("hola"))).1.total_translations = initialState.total_translations) ∧
     (("   " : String) = "" → text_input_translation sampleDir initialState ("   ") ("ts") ("en") ("es") (.ok ("hola")) = (initialState, "   ")) ∧
     (("   " : String) ≠ "" →
       (text_input_translation sampleDir initialState ("   ") ("ts") ("en") ("es") (.ok ("hola"))).1.status = "✨ Translating..." ∧
       (text_input_translation sampleDir initialState ("   ") ("ts") ("en") ("es") (.ok ("hola"))).1.status_class = "status-processing")) :=
  ⟨by decide, C1_blank_input sampleDir initialState ("   ") ("ts") ("en") ("es") (.ok ("hola")) (by decide)⟩

/-! ## C2 -/

/-- C2 counterexample: after six successful translations (History holds 6
entries, `max_history = 10`), lowering the `max_history` setting to 5 — a
mutating action within the widget's 5..100 range — leaves the History at 6
entries, violating `length(History) ≤ Settings.maxHistory`. -/
theorem C2_counterexample :
    ¬ ((update_max_history sixTranslationsState 5).conversation_history.length ≤
        (update_max_history sixTranslationsState 5).settings.max_history) := by
  decide

/-- C2 (amended): after every successful translation action (text or speech)
with `maxHistory ≥ 1`, `length(History) ≤ Settings.maxHistory` holds and the
new History is a suffix of the old History extended by the new entry, so any
eviction drops only the oldest entries; updating the `maxHistory` setting,
however, does not itself truncate History, so the invariant can be violated
after lowering the setting until the next successful translation. -/
theorem C2_history_bound (d : LangDirectory) (s : AppState)
    (input ts fl tl t : String) (h1 : input ≠ "") (h2 : pyStrip input ≠ "")
    (h3 : 1 ≤ s.settings.max_history) :
    ((text_input_translation d s input ts fl tl (.ok t)).1.conversation_history.length ≤
      (text_input_translation d s input ts fl tl (.ok t)).1.settings.max_history) ∧
    (∃ k, (text_input_translation d s input ts fl tl (.ok t)).1.conversation_history =
      (s.conversation_history ++ [text_history_entry d ts input t fl tl]).drop k) ∧
    ((translate_speech d s (.ok input) ts fl tl (.ok t)).conversation_history.length ≤
      (translate_speech d s (.ok input) ts fl tl (.ok t)).settings.max_history) ∧
    (∃ k, (translate_speech d s (.ok input) ts fl tl (.ok t)).conversation_history =
      (s.conversation_history ++ [speech_history_entry d ts input t fl tl]).drop k) := by
  rw [text_input_translation_ok d s input ts fl tl t h1 h2,
    translate_speech_ok d s input ts fl tl t h2]
  have hm : s.settings.max_history ≠ 0 := by omega
  refine ⟨?_, ?_, ?_, ?_⟩
  · simp only []
    split
    · exact pyTakeLast_length_le _ _ hm
    · simp only [List.length_append, List.length_singleton] at *
      omega
  · simp only []
    split
    · exact ⟨_, pyTakeLast_eq_drop _ _ hm⟩
    · exact ⟨0, rfl⟩
  · simp only []
    split
    · exact pyTakeLast_length_le _ _ hm
    · simp only [List.length_append, List.length_singleton] at *
      omega
  · simp only []
    split
    · exact ⟨_, pyTakeLast_eq_drop _ _ hm⟩
    · exact ⟨0, rfl⟩

theorem C2_history_bound_witness :
    ("hello" : String) ≠ "" ∧ pyStrip ("hello") ≠ "" ∧ 1 ≤ initialState.settings.max_history ∧
    (((text_input_translation sampleDir initialState ("hello") ("ts") ("en") ("es") (.ok ("hola"))).1.conversation_history.length ≤
       (text_input_translation sampleDir initialState ("hello") ("ts") ("en") ("es") (.ok ("hola"))).1.settings.max_history) ∧
     (∃ k, (text_input_translation sampleDir initialState ("hello") ("ts") ("en") ("es") (.ok ("hola"))).1.conversation_history =
       (initialState.conversation_history ++ [text_history_entry sampleDir ("ts") ("hello") ("hola") ("en") ("es")]).drop k) ∧
     ((translate_speech sampleDir initialState (.ok ("hello")) ("ts") ("en") ("es") (.ok ("hola"))).conversation_history.length ≤
       (translate_speech sampleDir initialState (.ok ("hello")) ("ts") ("en") ("es") (.ok ("hola"))).settings.max_history) ∧
     (∃ k, (translate_speech sampleDir initialState (.ok ("hello")) ("ts") ("en") ("es") (.ok ("hola"))).conversation_history =
       (initialState.conversation_history ++ [speech_history_entry sampleDir ("ts") ("hello") ("hola") ("en") ("es")]).drop k)) :=
  ⟨by decide, by decide, by decide,
    C2_history_bound sampleDir initialState ("hello") ("ts") ("en") ("es") ("hola") (by decide) (by decide) (by decide)⟩

/-! ## C3 -/

/-- C3: in the reachable state where the current TranslationResult is
non-empty but History is empty (successful translation, then Clear History),
`save_to_favorites` raises `IndexError` from `conversation_history[-1]`
instead of being a no-op or appending — contradicting the stated policy that
no action ever raises to the caller. -/
theorem C3_save_favorites_raises :
    C3_crash_state.translated_text ≠ none ∧
    save_to_favorites C3_crash_state = Except.error ("IndexError: list index out of range") :=
  ⟨by decide, rfl⟩

/-! ## C4 -/

theorem str_append_ne_empty (a b : String) (h : a.length ≠ 0) : a ++ b ≠ "" := by
  intro he
  have hl := congrArg String.length he
  simp only [String.length_append] at hl
  have : ("" : String).length = 0 := rfl
  omega

/-- C4: for every prior state, when `translate_speech` fails at the
speech-recognition step (`NoSpeechUnderstood`, i.e. `sr.UnknownValueError`) —
and likewise for every other gateway failure (`sr.RequestError`, any other
capture exception, or a raising translation call) — the Status becomes the
Error class with a non-empty message while History and the current
TranslationResult are unchanged from before the call. -/
theorem C4_failure_frame (d : LangDirectory) (s : AppState)
    (capture : SpeechCaptureOutcome) (ts fl tl : String) (outcome : TranslateOutcome)
    (h : gateway_failed capture outcome = true) :
    (translate_speech d s capture ts fl tl outcome).status_class = "status-error" ∧
    (translate_speech d s capture ts fl tl outcome).status ≠ "" ∧
    (translate_speech d s capture ts fl tl outcome).conversation_history = s.conversation_history ∧
    (translate_speech d s capture ts fl tl outcome).translated_text = s.translated_text := by
  cases capture with
  | unknownValue =>
    refine ⟨rfl, ?_, rfl, rfl⟩
    show ("❓ Could not understand audio" : String) ≠ ""
    decide
  | requestError =>
    refine ⟨rfl, ?_, rfl, rfl⟩
    show ("❌ Speech recognition service unavailable" : String) ≠ ""
    decide
  | otherError e =>
    refine ⟨rfl, ?_, rfl, rfl⟩
    exact str_append_ne_empty ("❌ Error: ") e (by decide)
  | ok spoken =>
    cases outcome with
    | ok t => simp [gateway_failed] at h
    | err e =>
      have hs : ¬ (pyStrip spoken = "") := by
        simpa [gateway_failed] using h
      refine ⟨?_, ?_, ?_, ?_⟩ <;>
        simp only [translate_speech, translate_text, update_status, if_neg hs]
      · exact str_append_ne_empty ("❌ Translation failed: ") e (by decide)

theorem C4_failure_frame_witness :
    gateway_failed .unknownValue (.ok ("hola")) = true ∧
    ((translate_speech sampleDir initialState .unknownValue ("ts") ("en") ("es") (.ok ("hola"))).status_class = "status-error" ∧
     (translate_speech sampleDir initialState .unknownValue ("ts") ("en") ("es") (.ok ("hola"))).status ≠ "" ∧
     (translate_speech sampleDir initialState .unknownValue ("ts") ("en") ("es") (.ok ("hola"))).conversation_history = initialState.conversation_history ∧
     (translate_speech sampleDir initialState .unknownValue ("ts") ("en") ("es") (.ok ("hola"))).translated_text = initialState.translated_text) :=
  ⟨by decide, C4_failure_frame sampleDir initialState .unknownValue ("ts") ("en") ("es") (.ok ("hola")) (by decide)⟩

/-! ## C5 -/

/-- C5: starting from an empty History with `maxHistory = 2` and counter 0,
three successful text translations T1, T2, T3 in that order leave the final
History equal to `[T2, T3]` (T1 evicted) and `totalTranslations = 3`. -/
theorem C5_three_translations (d : LangDirectory) (s0 : AppState)
    (t1 t2 t3 r1 r2 r3 ts1 ts2 ts3 fl tl : String)
    (hh : s0.conversation_history = []) (hm : s0.settings.max_history = 2)
    (ht : s0.total_translations = 0)
    (h1 : t1 ≠ "") (h1s : pyStrip t1 ≠ "") (h2 : t2 ≠ "") (h2s : pyStrip t2 ≠ "")
    (h3 : t3 ≠ "") (h3s : pyStrip t3 ≠ "") :
    (text_input_translation d (text_input_translation d (text_input_translation d s0 t1 ts1 fl tl (.ok r1)).1 t2 ts2 fl tl (.ok r2)).1 t3 ts3 fl tl (.ok r3)).1.conversation_history =
      [text_history_entry d ts2 t2 r2 fl tl, text_history_entry d ts3 t3 r3 fl tl] ∧
    (text_input_translation d (text_input_translation d (text_input_translation d s0 t1 ts1 fl tl (.ok r1)).1 t2 ts2 fl tl (.ok r2)).1 t3 ts3 fl tl (.ok r3)).1.total_translations = 3 := by
  rw [text_input_translation_ok d s0 t1 ts1 fl tl r1 h1 h1s]
  rw [text_input_translation_ok d _ t2 ts2 fl tl r2 h2 h2s]
  rw [text_input_translation_ok d _ t3 ts3 fl tl r3 h3 h3s]
  simp [hh, hm, ht, pyTakeLast]

theorem C5_three_translations_witness :
    initialTwoState.conversation_history = [] ∧ initialTwoState.settings.max_history = 2 ∧
    initialTwoState.total_translations = 0 ∧
    ("a" : String) ≠ "" ∧ pyStrip ("a") ≠ "" ∧ ("b" : String) ≠ "" ∧ pyStrip ("b") ≠ "" ∧
    ("c" : String) ≠ "" ∧ pyStrip ("c") ≠ "" ∧
    ((text_input_translation sampleDir (text_input_translation sampleDir (text_input_translation sampleDir initialTwoState ("a") ("t1") ("en") ("es") (.ok ("ra"))).1 ("b") ("t2") ("en") ("es") (.ok ("rb"))).1 ("c") ("t3") ("en") ("es") (.ok ("rc"))).1.conversation_history =
      [text_history_entry sampleDir ("t2") ("b") ("rb") ("en") ("es"), text_history_entry sampleDir ("t3") ("c") ("rc") ("en") ("es")] ∧
     (text_input_translation sampleDir (text_input_translation sampleDir (text_input_translation sampleDir initialTwoState ("a") ("t1") ("en") ("es") (.ok ("ra"))).1 ("b") ("t2") ("en") ("es") (.ok ("rb"))).1 ("c") ("t3") ("en") ("es") (.ok ("rc"))).1.total_translations = 3) :=
  ⟨rfl, rfl, rfl, by decide, by decide, by decide, by decide, by decide, by decide,
    C5_three_translations sampleDir initialTwoState ("a") ("b") ("c") ("ra") ("rb") ("rc") ("t1") ("t2") ("t3") ("en") ("es")
      rfl rfl rfl (by decide) (by decide) (by decide) (by decide) (by decide) (by decide)⟩

/-! ## C6 -/

/-- C6: for every non-empty, non-blank input text and language pair, a
successful text translation increments `totalTranslations` by exactly 1 and
appends exactly one new HistoryEntry — tagged `input_type = "text"` — to the
end of History (eviction may only drop entries from the front). -/
theorem C6_success_effect (d : LangDirectory) (s : AppState)
    (input ts fl tl t : String) (h1 : input ≠ "") (h2 : pyStrip input ≠ "") :
    (text_input_translation d s input ts fl tl (.ok t)).1.total_translations = s.total_translations + 1 ∧
    (text_history_entry d ts input t fl tl).input_type = some "text" ∧
    (∃ k, k ≤ s.conversation_history.length ∧
      (text_input_translation d s input ts fl tl (.ok t)).1.conversation_history =
        (s.conversation_history ++ [text_history_entry d ts input t fl tl]).drop k) ∧
    (text_input_translation d s input ts fl tl (.ok t)).1.conversation_history.getLast? =
      some (text_history_entry d ts input t fl tl) := by
  rw [text_input_translation_ok d s input ts fl tl t h1 h2]
  refine ⟨rfl, rfl, ?_, ?_⟩
  · simp only []
    split
    · rename_i hgt
      by_cases hm : s.settings.max_history = 0
      · exact ⟨0, Nat.zero_le _, by simp [pyTakeLast, hm]⟩
      · refine ⟨(s.conversation_history ++ [text_history_entry d ts input t fl tl]).length - s.settings.max_history, ?_, pyTakeLast_eq_drop _ _ hm⟩
        simp only [List.length_append, List.length_singleton]
        omega
    · exact ⟨0, Nat.zero_le _, rfl⟩
  · simp only []
    split
    · rename_i hgt
      by_cases hm : s.settings.max_history = 0
      · simp [pyTakeLast, hm]
      · rw [pyTakeLast_eq_drop _ _ hm]
        rw [List.drop_append_of_le_length (by simp; omega)]
        exact List.getLast?_concat _
    · exact List.getLast?_concat _

theorem C6_success_effect_witness :
    ("hi" : String) ≠ "" ∧ pyStrip ("hi") ≠ "" ∧
    ((text_input_translation sampleDir initialState ("hi") ("ts") ("en") ("es") (.ok ("hola"))).1.total_translations = initialState.total_translations + 1 ∧
     (text_history_entry sampleDir ("ts") ("hi") ("hola") ("en") ("es")).input_type = some "text" ∧
     (∃ k, k ≤ initialState.conversation_history.length ∧
       (text_input_translation sampleDir initialState ("hi") ("ts") ("en") ("es") (.ok ("hola"))).1.conversation_history =
         (initialState.conversation_history ++ [text_history_entry sampleDir ("ts") ("hi") ("hola") ("en") ("es")]).drop k) ∧
     (text_input_translation sampleDir initialState ("hi") ("ts") ("en") ("es") (.ok ("hola"))).1.conversation_history.getLast? =
       some (text_history_entry sampleDir ("ts") ("hi") ("hola") ("en") ("es"))) :=
  ⟨by decide, by decide,
    C6_success_effect sampleDir initialState ("hi") ("ts") ("en") ("es") ("hola") (by decide) (by decide)⟩

/-! ## C7 -/

/-- C7: for every History and search term, the history search keeps exactly
those entries for which the term is a case-insensitive substring of the
entry's original or translated text, preserving insertion order (the result
is a sublist of History); the empty term returns the whole History
unfiltered. -/
theorem C7_search_filter (term : String) (h : List HistoryEntry) :
    (filter_history term h).Sublist h ∧
    filter_history ("") h = h ∧
    (∀ e, e ∈ filter_history term h ↔ e ∈ h ∧ (term = "" ∨
      (pyLower term).toList <:+: (pyLower e.original).toList ∨
      (pyLower term).toList <:+: (pyLower e.translation).toList)) := by
  refine ⟨?_, by simp [filter_history], ?_⟩
  · by_cases ht : term = ""
    · simp [filter_history, ht]
    · simp only [filter_history, if_neg ht]
      exact List.filter_sublist h
  · intro e
    by_cases ht : term = ""
    · simp [filter_history, ht]
    · simp only [filter_history, if_neg ht, List.mem_filter, Bool.or_eq_true, pyContains,
        decide_eq_true_eq]
      tauto

/-! ## C8 -/

/-- C8: exporting the history does not alter the state; on an empty History
it returns nothing, and on a non-empty History the returned table has exactly
`length(History) + 1` rows (one header row plus one row per entry). -/
theorem C8_export_rows (s : AppState) :
    (export_history s).1 = s ∧
    (export_history s).2.map List.length =
      (if s.conversation_history = [] then none else some (s.conversation_history.length + 1)) := by
  match hc : s.conversation_history with
  | [] =>
    constructor
    · simp [export_history, hc]
    · simp [export_history, hc]
  | e :: es =>
    constructor
    · simp [export_history, hc]
    · simp [export_history, hc]

/-! ## C9 machinery: the counting dict -/

theorem lookupC_cons (q : String × Nat) (rest : List (String × Nat)) (k : String) :
    lookupC (q :: rest) k = if q.1 = k then some q.2 else lookupC rest k := by
  by_cases h : q.1 = k
  · rw [if_pos h]
    unfold lookupC
    rw [List.find?_cons_of_pos _ (by simp [h])]
    rfl
  · rw [if_neg h]
    unfold lookupC
    rw [List.find?_cons_of_neg _ (by simp [h])]

theorem bump_cons (q : String × Nat) (rest : List (String × Nat)) (k : String) :
    bump (q :: rest) k = if q.1 = k then (q.1, q.2 + 1) :: rest else q :: bump rest k := by
  obtain ⟨a, b⟩ := q
  simp [bump]

theorem lookupC_bump (cs : List (String × Nat)) (k k' : String) :
    lookupC (bump cs k) k' =
      if k' = k then some ((lookupC cs k).getD 0 + 1) else lookupC cs k' := by
  induction cs with
  | nil =>
    by_cases hk : k' = k
    · subst hk
      simp [bump, lookupC_cons, lookupC]
    · simp [bump, lookupC_cons, lookupC, hk, Ne.symm hk]
  | cons q rest ih =>
    rw [bump_cons]
    by_cases h0 : q.1 = k
    · rw [if_pos h0]
      by_cases hk : k' = k
      · subst hk
        have hq : q.1 = k' := h0
        simp [lookupC_cons, hq]
      · have hq : q.1 ≠ k' := by
          rw [h0]
          exact fun he => hk he.symm
        simp [lookupC_cons, hq, hk]
    · rw [if_neg h0]
      by_cases hq : q.1 = k'
      · have hk : k' ≠ k := fun he => h0 (hq.trans he)
        simp [lookupC_cons, hq, hk, h0]
      · simp [lookupC_cons, hq, h0, ih]

theorem keys_bump (cs : List (String × Nat)) (k : String) :
    (bump cs k).map Prod.fst =
      if k ∈ cs.map Prod.fst then cs.map Prod.fst else cs.map Prod.fst ++ [k] := by
  induction cs with
  | nil => simp [bump]
  | cons q rest ih =>
    rw [bump_cons]
    by_cases h0 : q.1 = k
    · rw [if_pos h0]
      simp [h0]
    · rw [if_neg h0]
      by_cases hm : k ∈ rest.map Prod.fst
      · simp [hm, ih, List.mem_cons]
      · have hnk : ¬ (k = q.1 ∨ k ∈ rest.map Prod.fst) := by
          rintro (he | hm2)
          · exact h0 he.symm
          · exact hm hm2
        simp [hm, ih, List.mem_cons, hnk, Ne.symm h0]

theorem countsList_append (l : List String) (a : String) :
    countsList (l ++ [a]) = bump (countsList l) a := by
  simp [countsList, List.foldl_append]

theorem lookupC_some_mem (cs : List (String × Nat)) (k : String) (v : Nat)
    (h : lookupC cs k = some v) : (k, v) ∈ cs := by
  unfold lookupC at h
  cases hf : cs.find? (fun p => p.1 == k) with
  | none =>
    rw [hf] at h
    exact absurd h (by simp)
  | some p =>
    rw [hf] at h
    have hv : p.2 = v := by simpa using h
    have hpk : p.1 = k := by simpa using List.find?_some hf
    have hp := List.mem_of_find?_eq_some hf
    rw [← hpk, ← hv]
    exact hp

theorem lookupC_of_mem_nodup (cs : List (String × Nat)) (hnd : (cs.map Prod.fst).Nodup)
    (p : String × Nat) (hp : p ∈ cs) : lookupC cs p.1 = some p.2 := by
  induction cs with
  | nil => simp at hp
  | cons q rest ih =>
    simp only [List.map_cons, List.nodup_cons] at hnd
    obtain ⟨hq1, hq2⟩ := hnd
    rcases List.mem_cons.mp hp with rfl | hp'
    · simp [lookupC_cons]
    · have hne : q.1 ≠ p.1 := fun he => hq1 (he ▸ List.mem_map_of_mem Prod.fst hp')
      rw [lookupC_cons, if_neg hne]
      exact ih hq2 hp'

theorem lookupC_isSome_keys (cs : List (String × Nat)) (k : String) :
    (lookupC cs k).isSome = true ↔ k ∈ cs.map Prod.fst := by
  induction cs with
  | nil => simp [lookupC]
  | cons q rest ih =>
    rw [lookupC_cons]
    by_cases h : q.1 = k
    · simp [h]
    · simp [h, ih, Ne.symm h]

/-- Invariant of the counting loop `langs[t] = langs.get(t, 0) + 1`: the
resulting dict maps each key to its occurrence count, has no duplicate keys,
and lists keys in order of first occurrence. -/
theorem countsList_ok (l : List String) :
    (∀ k, lookupC (countsList l) k = if 0 < l.count k then some (l.count k) else none) ∧
    ((countsList l).map Prod.fst).Nodup ∧
    List.Pairwise (fun a b => l.indexOf a < l.indexOf b) ((countsList l).map Prod.fst) ∧
    (∀ p ∈ countsList l, p.1 ∈ l) := by
  induction l using List.reverseRecOn with
  | nil =>
    refine ⟨?_, ?_, ?_, ?_⟩ <;> simp [countsList, lookupC]
  | append_singleton l a ih =>
    obtain ⟨ih1, ih2, ih3, ih4⟩ := ih
    have hmem_keys : ∀ k, k ∈ l → k ∈ (countsList l).map Prod.fst := by
      intro k hk
      rw [← lookupC_isSome_keys]
      rw [ih1 k, if_pos (List.count_pos_iff.mpr hk)]
      rfl
    have hkeys_mem : ∀ k, k ∈ (countsList l).map Prod.fst → k ∈ l := by
      intro k hk
      obtain ⟨p, hp, hpk⟩ := List.mem_map.mp hk
      exact hpk ▸ ih4 p hp
    refine ⟨?_, ?_, ?_, ?_⟩
    · intro k
      rw [countsList_append, lookupC_bump]
      by_cases hk : k = a
      · subst hk
        rw [if_pos rfl, ih1 k]
        simp only [List.count_append, List.count_singleton_self]
        by_cases hc : 0 < l.count k
        · rw [if_pos hc]
          simp
        · rw [if_neg hc]
          have : l.count k = 0 := Nat.eq_zero_of_not_pos hc
          simp [this]
      · rw [if_neg hk, ih1 k]
        have hca : List.count k [a] = 0 := by
          simp [List.count_singleton', Ne.symm hk]
        simp [List.count_append, hca]
    · rw [countsList_append, keys_bump]
      by_cases hm : a ∈ (countsList l).map Prod.fst
      · rw [if_pos hm]
        exact ih2
      · rw [if_neg hm]
        simp [List.nodup_append, ih2, hm]
    · rw [countsList_append, keys_bump]
      have htrans : List.Pairwise (fun x b => (l ++ [a]).indexOf x < (l ++ [a]).indexOf b)
          ((countsList l).map Prod.fst) := by
        refine List.Pairwise.imp_of_mem ?_ ih3
        intro x y hx hy hlt
        rw [List.indexOf_append_of_mem (hkeys_mem x hx),
          List.indexOf_append_of_mem (hkeys_mem y hy)]
        exact hlt
      by_cases hm : a ∈ (countsList l).map Prod.fst
      · rw [if_pos hm]
        exact htrans
      · rw [if_neg hm]
        have hal : a ∉ l := fun hal => hm (hmem_keys a hal)
        rw [List.pairwise_append]
        refine ⟨htrans, by simp, ?_⟩
        intro x hx b hb
        have hb' : b = a := by simpa using hb
        subst hb'
        rw [List.indexOf_append_of_mem (hkeys_mem x hx),
          List.indexOf_append_of_not_mem hal]
        have hxl : (l.indexOf x) < l.length := List.indexOf_lt_length.mpr (hkeys_mem x hx)
        have : List.indexOf b [b] = 0 := List.indexOf_cons_self b []
        omega
    · intro p hp
      rw [countsList_append] at hp
      have hpk : p.1 ∈ (bump (countsList l) a).map Prod.fst := List.mem_map_of_mem Prod.fst hp
      rw [keys_bump] at hpk
      by_cases hm : a ∈ (countsList l).map Prod.fst
      · rw [if_pos hm] at hpk
        exact List.mem_append_left _ (hkeys_mem p.1 hpk)
      · rw [if_neg hm] at hpk
        rcases List.mem_append.mp hpk with hin | hsing
        · exact List.mem_append_left _ (hkeys_mem p.1 hin)
        · simp only [List.mem_singleton] at hsing
          subst hsing
          simp

/-- The fold implementing Python `max(..., key=...)` returns the first
element of maximal value: everything before it is strictly smaller,
everything after it is no larger. -/
theorem foldl_max_decomp (rest : List (String × Nat)) :
    ∀ b : String × Nat,
      ∃ pre suf,
        b :: rest = pre ++ (rest.foldl (fun best q => if q.2 > best.2 then q else best) b) :: suf ∧
        b.2 ≤ (rest.foldl (fun best q => if q.2 > best.2 then q else best) b).2 ∧
        (∀ q ∈ pre, q.2 < (rest.foldl (fun best q => if q.2 > best.2 then q else best) b).2) ∧
        (∀ q ∈ suf, q.2 ≤ (rest.foldl (fun best q => if q.2 > best.2 then q else best) b).2) := by
  induction rest with
  | nil =>
    intro b
    exact ⟨[], [], rfl, Nat.le_refl _, by simp, by simp⟩
  | cons q rest ih =>
    intro b
    simp only [List.foldl_cons]
    by_cases hq : q.2 > b.2
    · rw [if_pos hq]
      obtain ⟨pre, suf, hdec, hble, hpre, hsuf⟩ := ih q
      refine ⟨b :: pre, suf, ?_, ?_, ?_, hsuf⟩
      · rw [List.cons_append, ← hdec]
      · exact Nat.le_trans (Nat.le_of_lt hq) hble
      · intro x hx
        rcases List.mem_cons.mp hx with rfl | hx'
        · exact Nat.lt_of_lt_of_le hq hble
        · exact hpre x hx'
    · rw [if_neg hq]
      obtain ⟨pre, suf, hdec, hble, hpre, hsuf⟩ := ih b
      cases pre with
      | nil =>
        simp only [List.nil_append] at hdec
        have hb : b = rest.foldl (fun best q => if q.2 > best.2 then q else best) b :=
          (List.cons.injEq _ _ _ _ ▸ hdec).1
        have hrest : rest = suf := (List.cons.injEq _ _ _ _ ▸ hdec).2
        refine ⟨[], q :: suf, ?_, hble, by simp, ?_⟩
        · simp only [List.nil_append]
          rw [← hb, ← hrest]
        · intro x hx
          rcases List.mem_cons.mp hx with rfl | hx'
          · rw [← hb]
            exact Nat.le_of_not_lt hq
          · exact hsuf x hx'
      | cons p0 pre' =>
        simp only [List.cons_append] at hdec
        have hp0 : b = p0 := (List.cons.injEq _ _ _ _ ▸ hdec).1
        have hrest : rest = pre' ++ (rest.foldl (fun best q => if q.2 > best.2 then q else best) b) :: suf :=
          (List.cons.injEq _ _ _ _ ▸ hdec).2
        refine ⟨b :: q :: pre', suf, ?_, hble, ?_, hsuf⟩
        · rw [List.cons_append, List.cons_append, ← hrest]
        · intro x hx
          rcases List.mem_cons.mp hx with rfl | hx'
          · exact hp0 ▸ hpre p0 (List.mem_cons_self p0 pre')
          · rcases List.mem_cons.mp hx' with rfl | hx''
            · have hb2 : b.2 < (rest.foldl (fun best q => if q.2 > best.2 then q else best) b).2 :=
                hp0 ▸ hpre p0 (List.mem_cons_self p0 pre')
              exact Nat.lt_of_le_of_lt (Nat.le_of_not_lt hq) hb2
            · exact hpre x (List.mem_cons_of_mem p0 hx'')

theorem maxByCount_decomp (cs : List (String × Nat)) (r : String × Nat)
    (h : maxByCount cs = some r) :
    ∃ pre suf, cs = pre ++ r :: suf ∧ (∀ q ∈ pre, q.2 < r.2) ∧ (∀ q ∈ suf, q.2 ≤ r.2) := by
  cases cs with
  | nil => simp [maxByCount] at h
  | cons p rest =>
    have hr : rest.foldl (fun best q => if q.2 > best.2 then q else best) p = r := by
      simpa [maxByCount] using h
    obtain ⟨pre, suf, hdec, _, hpre, hsuf⟩ := foldl_max_decomp rest p
    rw [hr] at hdec hpre hsuf
    exact ⟨pre, suf, hdec, hpre, hsuf⟩

theorem indexOf_le_of_get (l : List String) (j : Nat) (hj : j < l.length) :
    l.indexOf (l.get ⟨j, hj⟩) ≤ j := by
  induction l generalizing j with
  | nil => simp at hj
  | cons x xs ih =>
    cases j with
    | zero => simp [List.indexOf_cons_self]
    | succ j' =>
      have hj' : j' < xs.length := by simpa using hj
      have hget : (x :: xs).get ⟨j' + 1, hj⟩ = xs.get ⟨j', hj'⟩ := rfl
      rw [hget]
      by_cases hx : x = xs.get ⟨j', hj'⟩
      · rw [List.indexOf_cons_eq _ hx]
        exact Nat.zero_le _
      · rw [List.indexOf_cons_ne _ hx]
        exact Nat.succ_le_succ (ih j' hj')

theorem countLang_eq_count (h : List HistoryEntry) (n : String) :
    countLang h n = (h.map (fun e => e.to_lang_name)).count n := by
  simp [countLang, List.count_eq_countP, List.countP_map]
  rfl

theorem to_lang_get (h : List HistoryEntry) (i : Nat) (hi : i < h.length)
    (hi2 : i < (h.map (fun e => e.to_lang_name)).length) :
    (h.map (fun e => e.to_lang_name)).get ⟨i, hi2⟩ = (h.get ⟨i, hi⟩).to_lang_name := by
  simp [List.get_eq_getElem, List.getElem_map]

/-- C9: for every non-empty History, the Most-Used-Language statistic is the
target-language name with the maximum occurrence count over History, ties
broken by the first-encountered language in insertion order: every entry
strictly before the winner's first occurrence has a strictly smaller count. -/
theorem C9_most_used (h : List HistoryEntry) (hne : h ≠ []) :
    ∃ l, most_used_language h = some l ∧
      (∀ e ∈ h, countLang h e.to_lang_name ≤ countLang h l) ∧
      (∃ i, ∃ hi : i < h.length, (h.get ⟨i, hi⟩).to_lang_name = l ∧
        ∀ j, ∀ hj : j < h.length, j < i →
          countLang h ((h.get ⟨j, hj⟩).to_lang_name) < countLang h l) := by
  set L := h.map (fun e => e.to_lang_name) with hL
  obtain ⟨ok1, ok2, ok3, ok4⟩ := countsList_ok L
  have hlc : lang_counts h = countsList L := rfl
  obtain ⟨e0, he0⟩ : ∃ e, e ∈ h := by
    cases h with
    | nil => exact absurd rfl hne
    | cons x xs => exact ⟨x, List.mem_cons_self x xs⟩
  have he0L : e0.to_lang_name ∈ L := List.mem_map_of_mem _ he0
  have hcsne : countsList L ≠ [] := by
    intro hnil
    have hk := ok1 e0.to_lang_name
    rw [if_pos (List.count_pos_iff.mpr he0L), hnil] at hk
    simp [lookupC] at hk
  obtain ⟨c, cs', hcs'⟩ : ∃ c cs', countsList L = c :: cs' := by
    cases hcc : countsList L with
    | nil => exact absurd hcc hcsne
    | cons c cs' => exact ⟨c, cs', rfl⟩
  have hmax : maxByCount (countsList L) = some (cs'.foldl (fun best q => if q.2 > best.2 then q else best) c) := by
    rw [hcs']
    rfl
  obtain ⟨pre, suf, hdec, hpre, hsuf⟩ := maxByCount_decomp _ _ hmax
  set r := cs'.foldl (fun best q => if q.2 > best.2 then q else best) c with hr
  have hrmem : r ∈ countsList L := by
    rw [hdec]
    exact List.mem_append_right _ (List.mem_cons_self _ _)
  have hrk : lookupC (countsList L) r.1 = some r.2 := lookupC_of_mem_nodup _ ok2 r hrmem
  have hr1L : r.1 ∈ L := ok4 r hrmem
  have hrcount : r.2 = L.count r.1 := by
    have hx := ok1 r.1
    rw [if_pos (List.count_pos_iff.mpr hr1L)] at hx
    exact Option.some.inj (hrk.symm.trans hx)
  have hub : ∀ q ∈ countsList L, q.2 ≤ r.2 := by
    intro q hq
    rw [hdec] at hq
    rcases List.mem_append.mp hq with hq1 | hq2
    · exact Nat.le_of_lt (hpre q hq1)
    · rcases List.mem_cons.mp hq2 with rfl | hq3
      · exact Nat.le_refl _
      · exact hsuf q hq3
  refine ⟨r.1, ?_, ?_, ?_⟩
  · show (maxByCount (lang_counts h)).map (fun p => p.1) = some r.1
    rw [hlc, hmax]
    rfl
  · intro e he
    have hkL : e.to_lang_name ∈ L := List.mem_map_of_mem _ he
    have hlk := ok1 e.to_lang_name
    rw [if_pos (List.count_pos_iff.mpr hkL)] at hlk
    have hqmem := lookupC_some_mem _ _ _ hlk
    have hle := hub _ hqmem
    rw [countLang_eq_count h e.to_lang_name, countLang_eq_count h r.1, ← hL, ← hrcount]
    exact hle
  · have hiL : L.indexOf r.1 < L.length := List.indexOf_lt_length.mpr hr1L
    have hlen : L.length = h.length := by
      rw [hL, List.length_map]
    refine ⟨L.indexOf r.1, hlen ▸ hiL, ?_, ?_⟩
    · rw [← to_lang_get h (L.indexOf r.1) (hlen ▸ hiL) hiL]
      exact List.indexOf_get hiL
    · intro j hj hji
      have hj' : j < L.length := hlen ▸ hj
      have hgm : (h.get ⟨j, hj⟩).to_lang_name = L.get ⟨j, hj'⟩ :=
        (to_lang_get h j hj hj').symm
      have haL : L.get ⟨j, hj'⟩ ∈ L := List.get_mem L j hj'
      have hidx : L.indexOf (L.get ⟨j, hj'⟩) ≤ j := indexOf_le_of_get L j hj'
      have hlk := ok1 (L.get ⟨j, hj'⟩)
      rw [if_pos (List.count_pos_iff.mpr haL)] at hlk
      have hamem := lookupC_some_mem _ _ _ hlk
      rw [hgm, countLang_eq_count h (L.get ⟨j, hj'⟩), countLang_eq_count h r.1, ← hL, ← hrcount]
      rw [hdec] at hamem
      rcases List.mem_append.mp hamem with hq1 | hq2
      · exact hpre _ hq1
      · rcases List.mem_cons.mp hq2 with heq | hq3
        · exfalso
          have hae : L.get ⟨j, hj'⟩ = r.1 := congrArg Prod.fst heq
          rw [hae] at hidx
          omega
        · exfalso
          have hkeys : (countsList L).map Prod.fst = pre.map Prod.fst ++ r.1 :: suf.map Prod.fst := by
            rw [hdec]
            simp
          have hpw := ok3
          rw [hkeys, List.pairwise_append] at hpw
          obtain ⟨-, hpw2, -⟩ := hpw
          rw [List.pairwise_cons] at hpw2
          have hlt := hpw2.1 _ (List.mem_map_of_mem Prod.fst hq3)
          have hlt2 : List.indexOf r.1 L < List.indexOf (L.get ⟨j, hj'⟩) L := hlt
          omega

theorem C9_most_used_witness :
    spanishFrenchHistory ≠ [] ∧
    most_used_language spanishFrenchHistory = some ("Spanish") ∧
    (∃ l, most_used_language spanishFrenchHistory = some l ∧
      (∀ e ∈ spanishFrenchHistory, countLang spanishFrenchHistory e.to_lang_name ≤ countLang spanishFrenchHistory l) ∧
      (∃ i, ∃ hi : i < spanishFrenchHistory.length, (spanishFrenchHistory.get ⟨i, hi⟩).to_lang_name = l ∧
        ∀ j, ∀ hj : j < spanishFrenchHistory.length, j < i →
          countLang spanishFrenchHistory ((spanishFrenchHistory.get ⟨j, hj⟩).to_lang_name) < countLang spanishFrenchHistory l)) :=
  ⟨by decide, by decide, C9_most_used spanishFrenchHistory (by decide)⟩

/-! ## C10 machinery: case conversion and dict comprehension -/

theorem char_toNat_ofNat {m : Nat} (h : m < 0xd800) : (Char.ofNat m).toNat = m := by
  rw [Char.ofNat, dif_pos (Or.inl h)]
  simp [Char.ofNatAux, Char.toNat, UInt32.toNat]

theorem toLower_eq (c : Char) :
    c.toLower = if c.toNat ≥ 65 ∧ c.toNat ≤ 90 then Char.ofNat (c.toNat + 32) else c := rfl

theorem toUpper_eq (c : Char) :
    c.toUpper = if c.toNat ≥ 97 ∧ c.toNat ≤ 122 then Char.ofNat (c.toNat - 32) else c := rfl

/-- Lower-casing the upper-cased version of a lower-case-stable character
gives the character back. -/
theorem toUpper_toLower (c : Char) (h : c.toLower = c) : c.toUpper.toLower = c := by
  by_cases hu : c.toNat ≥ 97 ∧ c.toNat ≤ 122
  · rw [toUpper_eq c, if_pos hu, toLower_eq, if_pos]
    · have h1 : c.toNat - 32 + 32 = c.toNat := by omega
      rw [char_toNat_ofNat (by omega), h1, Char.ofNat_toNat]
    · rw [char_toNat_ofNat (by omega)]
      omega
  · rw [toUpper_eq c, if_neg hu, h]

/-- Python's `name.capitalize().lower() == name` for all-lower-case `name`. -/
theorem pyLower_pyCapitalize (n : String) (h : pyLower n = n) :
    pyLower (pyCapitalize n) = n := by
  have hl : n.toList.map Char.toLower = n.toList := congrArg String.toList h
  cases hn : n.toList with
  | nil =>
    have hne : n = "" := by
      have hmk : String.mk n.toList = n := rfl
      rw [← hmk, hn]
    rw [hne]
    rfl
  | cons c cs =>
    rw [hn] at hl
    simp only [List.map_cons, List.cons.injEq] at hl
    obtain ⟨hc, hcs⟩ := hl
    have hcap : pyCapitalize n = String.mk (c.toUpper :: cs.map Char.toLower) := by
      unfold pyCapitalize
      rw [hn]
    rw [hcap]
    unfold pyLower
    have htl : (String.mk (c.toUpper :: cs.map Char.toLower)).toList = c.toUpper :: cs.map Char.toLower := rfl
    rw [htl]
    simp only [List.map_cons, List.map_map]
    rw [toUpper_toLower c hc]
    have hmm : cs.map (Char.toLower ∘ Char.toLower) = cs := by
      rw [← List.map_map, hcs, hcs]
    rw [hmm]
    have : String.mk n.toList = n := rfl
    rw [← this, hn]

theorem dictGet_cons (q : String × String) (rest : List (String × String)) (k dflt : String) :
    dictGet (q :: rest) k dflt = if q.1 = k then q.2 else dictGet rest k dflt := by
  by_cases h : q.1 = k
  · rw [if_pos h]
    unfold dictGet
    rw [List.find?_cons_of_pos _ (by simp [h])]
  · rw [if_neg h]
    unfold dictGet
    rw [List.find?_cons_of_neg _ (by simp [h])]

theorem dictGet_mem_nodup (d : List (String × String)) (hnd : (d.map Prod.fst).Nodup)
    (p : String × String) (hp : p ∈ d) (dflt : String) : dictGet d p.1 dflt = p.2 := by
  induction d with
  | nil => simp at hp
  | cons q rest ih =>
    simp only [List.map_cons, List.nodup_cons] at hnd
    obtain ⟨hq1, hq2⟩ := hnd
    rcases List.mem_cons.mp hp with rfl | hp'
    · rw [dictGet_cons, if_pos rfl]
    · have hne : q.1 ≠ p.1 := fun he => hq1 (he ▸ List.mem_map_of_mem Prod.fst hp')
      rw [dictGet_cons, if_neg hne]
      exact ih hq2 hp'

theorem dictInsert_not_mem (acc : List (String × String)) (k v : String)
    (h : k ∉ acc.map Prod.fst) : dictInsert acc k v = acc ++ [(k, v)] := by
  induction acc with
  | nil => rfl
  | cons q rest ih =>
    simp only [List.map_cons, List.mem_cons] at h
    push_neg at h
    obtain ⟨h1, h2⟩ := h
    have hq : q.1 ≠ k := fun he => h1 he.symm
    obtain ⟨a, b⟩ := q
    simp only [dictInsert, if_neg hq]
    rw [ih h2]
    rfl

theorem dictOf_append (l : List (String × String)) (p : String × String) :
    dictOf (l ++ [p]) = dictInsert (dictOf l) p.1 p.2 := by
  simp [dictOf, List.foldl_append]

theorem keys_dictOf (l : List (String × String)) (h : (l.map Prod.fst).Nodup) :
    dictOf l = l := by
  induction l using List.reverseRecOn with
  | nil => rfl
  | append_singleton l p ih =>
    simp only [List.map_append, List.map_singleton] at h
    rw [List.nodup_append] at h
    obtain ⟨h1, _, h3⟩ := h
    rw [dictOf_append, ih h1, dictInsert_not_mem]
    intro hm
    exact h3 hm (List.mem_singleton_self p.1)

/-- C10: for every language code in the directory (codes unique as dict keys,
names unique and lower-case as in `googletrans.LANGUAGES`), converting the
code to its capitalized display name and converting that name back yields the
original code: `get_language_code (get_language_name code) = code`. -/
theorem C10_roundtrip (d : LangDirectory)
    (hcodes : (d.map Prod.fst).Nodup)
    (hnames : (d.map Prod.snd).Nodup)
    (hlower : ∀ p ∈ d, pyLower p.2 = p.2)
    (code : String) (hmem : code ∈ d.map Prod.fst) :
    get_language_code d (get_language_name d code) = code := by
  obtain ⟨p, hp, hpc⟩ := List.mem_map.mp hmem
  have hswapkeys : ((d.map (fun p => (p.2, p.1))).map Prod.fst).Nodup := by
    rw [List.map_map]
    simpa [Function.comp] using hnames
  have hmap : language_mapping d = d.map (fun p => (p.2, p.1)) := by
    unfold language_mapping
    exact keys_dictOf _ hswapkeys
  have hc2n : language_code_to_name d = d := by
    unfold language_code_to_name
    rw [hmap, List.map_map]
    have he : d.map ((fun p : String × String => (p.2, p.1)) ∘ (fun p : String × String => (p.2, p.1))) = d := by
      have hid : ((fun p : String × String => (p.2, p.1)) ∘ (fun p : String × String => (p.2, p.1))) = id := by
        funext q
        rfl
      rw [hid, List.map_id]
    rw [he]
    exact keys_dictOf d hcodes
  have hname : get_language_name d code = pyCapitalize p.2 := by
    unfold get_language_name
    rw [hc2n, ← hpc, dictGet_mem_nodup d hcodes p hp]
  rw [hname]
  unfold get_language_code
  rw [hmap, pyLower_pyCapitalize p.2 (hlower p hp)]
  have hpmem : (p.2, p.1) ∈ d.map (fun p => (p.2, p.1)) := List.mem_map_of_mem _ hp
  have hget : dictGet (d.map (fun p => (p.2, p.1))) p.2 (pyCapitalize p.2) = p.1 :=
    dictGet_mem_nodup _ hswapkeys (p.2, p.1) hpmem (pyCapitalize p.2)
  rw [hget, hpc]

theorem C10_roundtrip_witness :
    (sampleDir.map Prod.fst).Nodup ∧
    (sampleDir.map Prod.snd).Nodup ∧
    (∀ p ∈ sampleDir, pyLower p.2 = p.2) ∧
    ("zh-cn" : String) ∈ sampleDir.map Prod.fst ∧
    get_language_code sampleDir (get_language_name sampleDir ("zh-cn")) = "zh-cn" :=
  ⟨by decide, by decide, by decide, by decide,
    C10_roundtrip sampleDir (by decide) (by decide) (by decide) ("zh-cn") (by decide)⟩
